import Mathlib

/-!
# Verification of the panopticon access-control core

Shallow embedding of the panopticon repository's core logic:

* the embedded EM4100 tag decoder (`src/sentinel/src/rfiduino.rs`),
* the sentinel session protocol handler (`src/panopticon/src/tcp.rs`),
* the access decision engine (`src/panopticon/src/sentinel.rs`),
* the deferred lock-command resolver (`src/panopticon/src/api.rs`).

Pure functions are translated to Lean functions; machine integers are
modelled as `Nat` with explicit `% 256` where `u8` wrap-around could occur;
fallible operations return `Option` / `Except`.
-/

namespace Panopticon

/-! ## Tag decoder (`src/sentinel/src/rfiduino.rs`)

`decode_tag` busy-waits on GPIO transitions; the values that determine a
successful decode are the 55 Manchester-decoded cell samples taken at line
137 of the source (`let dat = if self.demod_out.is_high() { 1 } else { 0 }`),
an 11-row × 5-column grid.  We model the payload phase of `decode_tag`
(lines 128-174) as a function of that sampled grid
`g : Nat → Nat → Bool` (row, column ↦ sampled level).  The earlier header
and timing phases, and a timeout while waiting for a cell transition, abort
with `None` before/without reaching the parity checks; we model the run in
which every awaited transition arrives, the only kind of run that can
produce a tag. -/

/-- Numeric value of a sampled level (`1` if high, `0` if low),
line 137 of `rfiduino.rs`. -/
def bitOf (b : Bool) : Nat := if b then 1 else 0

/-- A fixed five-element array of bytes/counters (Rust `[u8; 5]`:
`buf` and `col_parity` in `decode_tag`). -/
structure Arr5 where
  a0 : Nat
  a1 : Nat
  a2 : Nat
  a3 : Nat
  a4 : Nat
deriving DecidableEq, Repr

/-- Read `x[i]` from a five-element array. -/
def Arr5.get (x : Arr5) : Nat → Nat
  | 0 => x.a0
  | 1 => x.a1
  | 2 => x.a2
  | 3 => x.a3
  | _ => x.a4

/-- Write `x[i] = v` in a five-element array. -/
def Arr5.set (x : Arr5) : Nat → Nat → Arr5
  | 0, v => { x with a0 := v }
  | 1, v => { x with a1 := v }
  | 2, v => { x with a2 := v }
  | 3, v => { x with a3 := v }
  | _, v => { x with a4 := v }

/-- `[0u8; 5]` — the zero-initialised array. -/
def arr0 : Arr5 := ⟨0, 0, 0, 0, 0⟩

/-- One iteration of the inner `for col in 0..5` loop of `decode_tag`
(lines 135-157).  The state is `(buf, col_parity, row_parity)`.
`buf[j] <<= 1; buf[j] |= dat` on a `u8` is `(buf[j] * 2 + dat) % 256`;
the store only happens when `col < 4 && row < 10` (line 140). -/
def colStep (g : Nat → Nat → Bool) (row : Nat)
    (st : Arr5 × Arr5 × Nat) (col : Nat) : Arr5 × Arr5 × Nat :=
  let buf := st.1
  let cp := st.2.1
  let rp := st.2.2
  let dat := bitOf (g row col)
  let j := row / 2
  let buf' := if col < 4 && row < 10 then buf.set j ((buf.get j * 2 + dat) % 256) else buf
  (buf', cp.set col (cp.get col + dat), rp + dat)

/-- One row of the `for row in 0..11` loop: the five column iterations,
starting from row parity `0` (line 132: `let mut row_parity: u8 = 0`). -/
def rowStep (g : Nat → Nat → Bool) (row : Nat) (buf cp : Arr5) :
    Arr5 × Arr5 × Nat :=
  (List.range 5).foldl (colStep g row) (buf, cp, 0)

/-- One iteration of the `for row in 0..11` loop body (lines 131-163):
run the row, then `if row < 10 && (row_parity & 0x01) != 0 { return None; }`. -/
def rowCheck (g : Nat → Nat → Bool) (st : Arr5 × Arr5) (row : Nat) :
    Option (Arr5 × Arr5) :=
  let r := rowStep g row st.1 st.2
  if row < 10 && r.2.2 % 2 == 1 then none else some (r.1, r.2.1)

/-- The full `for row in 0..11` loop with its early `return None` on an odd
data-row parity. -/
def decodeRows (g : Nat → Nat → Bool) : Option (Arr5 × Arr5) :=
  (List.range 11).foldlM (rowCheck g) (arr0, arr0)

/-- `decode_tag` payload validation (lines 128-174): run the 11×5 loop,
then check the column parity accumulators of the four data columns
(`col_parity[0] & 1 != 0 || col_parity[1] & 1 != 0 || col_parity[2] & 1 != 0
|| col_parity[3] & 1 != 0` ⟹ `None`, lines 166-172), otherwise return the
five assembled bytes. -/
def decode_tag (g : Nat → Nat → Bool) : Option (List Nat) :=
  match decodeRows g with
  | none => none
  | some (buf, cp) =>
    if cp.a0 % 2 != 0 || cp.a1 % 2 != 0 || cp.a2 % 2 != 0 || cp.a3 % 2 != 0 then
      none
    else
      some [buf.a0, buf.a1, buf.a2, buf.a3, buf.a4]

/-- Final value of the row-parity accumulator of row `r` (the sum of the
five sampled cell values of that row). -/
def rowParitySum (g : Nat → Nat → Bool) (r : Nat) : Nat :=
  bitOf (g r 0) + bitOf (g r 1) + bitOf (g r 2) + bitOf (g r 3) + bitOf (g r 4)

/-- Final value of the column-parity accumulator `col_parity[c]` (the sum of
the sampled values of column `c` over all 11 rows, the dedicated parity row
included). -/
def colParitySum (g : Nat → Nat → Bool) (c : Nat) : Nat :=
  bitOf (g 0 c) + bitOf (g 1 c) + bitOf (g 2 c) + bitOf (g 3 c) + bitOf (g 4 c)
    + bitOf (g 5 c) + bitOf (g 6 c) + bitOf (g 7 c) + bitOf (g 8 c)
    + bitOf (g 9 c) + bitOf (g 10 c)

/-- The all-zero sampled grid (a degenerate but parity-valid frame). -/
def gridZero : Nat → Nat → Bool := fun _ _ => false

/-- The grid that differs from `gridZero` in exactly one cell: row 10,
column 4 — the last cell of the dedicated parity row, which feeds only the
fifth column parity accumulator.  Exactly one of the five column parity sums
(the fifth) is odd; every row parity and every data-column parity is even. -/
def gridBadCol4 : Nat → Nat → Bool := fun r c => r == 10 && c == 4

lemma rowStep_rp (g : Nat → Nat → Bool) (row : Nat) (buf cp : Arr5) :
    (rowStep g row buf cp).2.2 = rowParitySum g row := by
  simp [rowStep, colStep, rowParitySum, List.range_succ]

lemma rowStep_cp_get (g : Nat → Nat → Bool) (row : Nat) (buf cp : Arr5)
    (c : Nat) (hc : c < 5) :
    ((rowStep g row buf cp).2.1).get c = cp.get c + bitOf (g row c) := by
  interval_cases c <;>
    simp [rowStep, colStep, List.range_succ, Arr5.set, Arr5.get]

lemma foldlM_rowCheck_spec (g : Nat → Nat → Bool) :
    ∀ (rows : List Nat) (st fin : Arr5 × Arr5),
      rows.foldlM (rowCheck g) st = some fin →
      (∀ r ∈ rows, r < 10 → rowParitySum g r % 2 = 0) ∧
      (∀ c < 5, fin.2.get c = st.2.get c + (rows.map (fun r => bitOf (g r c))).sum) := by
  intro rows
  induction rows with
  | nil =>
    intro st fin h
    simp only [List.foldlM_nil, Option.pure_def, Option.some_inj] at h
    subst h
    simp
  | cons row rest ih =>
    intro st fin h
    rw [List.foldlM_cons] at h
    rcases h1 : rowCheck g st row with _ | st1
    · rw [h1] at h; exact Option.noConfusion h
    rw [h1] at h
    simp only [Option.bind_eq_bind, Option.some_bind] at h
    obtain ⟨hrest, hsum⟩ := ih st1 fin h
    simp only [rowCheck] at h1
    split at h1
    · exact Option.noConfusion h1
    next hcond =>
      simp only [Option.some_inj] at h1
      constructor
      · intro r hr hr10
        rcases List.mem_cons.mp hr with rfl | hr'
        · rw [Bool.and_eq_true, not_and_or] at hcond
          rcases hcond with hc1 | hc2
          · simp [hr10] at hc1
          · have := rowStep_rp g r st.1 st.2
            simp only [beq_iff_eq] at hc2
            omega
        · exact hrest r hr' hr10
      · intro c hc
        rcases st1 with ⟨st1b, st1c⟩
        rw [Prod.mk.injEq] at h1
        obtain ⟨hb, hcp⟩ := h1
        have hget := rowStep_cp_get g row st.1 st.2 c hc
        rw [hcp] at hget
        have hs := hsum c hc
        dsimp only at hs
        rw [hget] at hs
        simp only [List.map_cons, List.sum_cons]
        omega

/-- **C1** (amended).  `decode_tag` accepts a sampled bitstream only if the
parity accumulators it actually checks are all even: the row parity of each
of the 10 data rows and the column parity accumulators of the four data
columns.  The fifth column parity accumulator (`col_parity[4]`, fed by the
row-parity column and the dedicated parity row) is never examined, so its
parity is not required — see `decode_tag_col4_counterexample`. -/
theorem decode_tag_parity (g : Nat → Nat → Bool) (t : List Nat)
    (h : decode_tag g = some t) :
    (∀ r < 10, rowParitySum g r % 2 = 0) ∧ (∀ c < 4, colParitySum g c % 2 = 0) := by
  unfold decode_tag at h
  rcases hd : decodeRows g with _ | ⟨buf, cp⟩
  · rw [hd] at h; exact Option.noConfusion h
  rw [hd] at h
  obtain ⟨hrows, hcols⟩ := foldlM_rowCheck_spec g (List.range 11) (arr0, arr0) (buf, cp) hd
  replace h : (if cp.a0 % 2 != 0 || cp.a1 % 2 != 0 || cp.a2 % 2 != 0 || cp.a3 % 2 != 0
      then none
      else some [buf.a0, buf.a1, buf.a2, buf.a3, buf.a4]) = some t := h
  split at h
  · exact Option.noConfusion h
  next hcond =>
    constructor
    · intro r hr
      exact hrows r (List.mem_range.mpr (by omega)) hr
    · intro c hc
      simp only [Bool.or_eq_true, bne_iff_ne, ne_eq, not_or, not_not] at hcond
      have harr0 : ∀ i : Nat, arr0.get i = 0 := by
        intro i
        rcases i with _ | _ | _ | _ | i <;> rfl
      have hexp : ∀ c', c' < 5 → cp.get c' = colParitySum g c' := by
        intro c' hc'
        have hx := hcols c' hc'
        dsimp only at hx
        rw [harr0 c'] at hx
        rw [hx]
        simp only [colParitySum, List.range_succ, List.map_append, List.map_cons,
          List.map_nil, List.sum_append, List.sum_cons, List.sum_nil, List.range_zero]
        omega
      obtain ⟨⟨⟨h0, h1⟩, h2⟩, h3⟩ := hcond
      interval_cases c
      · have := hexp 0 (by omega); rw [show cp.get 0 = cp.a0 from rfl] at this; omega
      · have := hexp 1 (by omega); rw [show cp.get 1 = cp.a1 from rfl] at this; omega
      · have := hexp 2 (by omega); rw [show cp.get 2 = cp.a2 from rfl] at this; omega
      · have := hexp 3 (by omega); rw [show cp.get 3 = cp.a3 from rfl] at this; omega

/-- **C1** witness: the all-zero frame is accepted, and the amended theorem's
conclusions hold for it. -/
theorem decode_tag_parity_witness :
    decode_tag gridZero = some [0, 0, 0, 0, 0] ∧
    ((∀ r < 10, rowParitySum gridZero r % 2 = 0) ∧
     (∀ c < 4, colParitySum gridZero c % 2 = 0)) :=
  ⟨by decide, decode_tag_parity gridZero [0, 0, 0, 0, 0] (by decide)⟩

/-- **C1** counterexample: a sampled bitstream whose fifth column parity
accumulator is odd (and is the only odd parity sum) is nevertheless
accepted — `decode_tag` returns a tag instead of the `None` the claim
requires. -/
theorem decode_tag_col4_counterexample :
    colParitySum gridBadCol4 4 % 2 = 1 ∧
    decode_tag gridBadCol4 = some [0, 0, 0, 0, 0] := by
  constructor
  · decide
  · decide

/-! ### Double-read verification (`scan_for_tag`, lines 181-207)

`scan_for_tag` calls `decode_tag` and debounces with the driver state
`(scan_buffer, read_count)`.  We model it as a state transformer taking the
result of the inner `decode_tag` call as an argument. -/

/-- The decoder's debounce state: `scan_buffer: TagId` and
`read_count: u8`. -/
structure ScanState where
  scan_buffer : List Nat
  read_count : Nat
deriving DecidableEq, Repr

/-- `reset_scan` (lines 204-207): zero the buffer and the counter. -/
def reset_scan : ScanState := ⟨[0, 0, 0, 0, 0], 0⟩

/-- `scan_for_tag` (lines 181-201), parameterised by the result of the
inner `decode_tag` call.  `let tag_data = self.decode_tag()?;` returns
`none` without touching the state; otherwise `read_count` is incremented
(a `u8`, hence `% 256`) and the double-read comparison runs. -/
def scan_for_tag (st : ScanState) (decoded : Option (List Nat)) :
    ScanState × Option (List Nat) :=
  match decoded with
  | none => (st, none)
  | some tag_data =>
    let rc := (st.read_count + 1) % 256
    if rc == 1 then
      ({ scan_buffer := tag_data, read_count := rc }, none)
    else if rc ≥ 2 then
      ({ st with read_count := 0 },
       if tag_data == st.scan_buffer then some tag_data else none)
    else
      ({ st with read_count := rc }, none)

/-- **C9**.  From a freshly reset state (`read_count = 0`): the first
successful decode never surfaces a tag (it is stored for verification);
the second successful decode surfaces the tag exactly when it equals the
first; a differing second decode yields `none` and resets the counter to
`0`, so a following successful decode is again treated as a first read and
yields `none`. -/
theorem scan_for_tag_debounce (st : ScanState) (h : st.read_count = 0)
    (t1 t2 t3 : List Nat) :
    (scan_for_tag st (some t1)).2 = none
    ∧ (scan_for_tag st (some t1)).1.read_count = 1
    ∧ (scan_for_tag st (some t1)).1.scan_buffer = t1
    ∧ (t2 = t1 →
        (scan_for_tag (scan_for_tag st (some t1)).1 (some t2)).2 = some t2)
    ∧ (t2 ≠ t1 →
        (scan_for_tag (scan_for_tag st (some t1)).1 (some t2)).2 = none)
    ∧ (scan_for_tag (scan_for_tag st (some t1)).1 (some t2)).1.read_count = 0
    ∧ (scan_for_tag
        (scan_for_tag (scan_for_tag st (some t1)).1 (some t2)).1 (some t3)).2 = none := by
  rcases st with ⟨buf, rc⟩
  simp only at h
  subst h
  refine ⟨rfl, rfl, rfl, ?_, ?_, rfl, rfl⟩
  · intro he
    subst he
    simp [scan_for_tag]
  · intro hne
    simp [scan_for_tag]
    intro he
    exact absurd he hne

/-- **C9** witness: concrete run with `t1 = t2 = [1,2,3,4,5]` and
`t3 = [9,9,9,9,9]` from the reset state. -/
theorem scan_for_tag_debounce_witness :
    reset_scan.read_count = 0 ∧
    ((scan_for_tag reset_scan (some [1, 2, 3, 4, 5])).2 = none
    ∧ (scan_for_tag reset_scan (some [1, 2, 3, 4, 5])).1.read_count = 1
    ∧ (scan_for_tag reset_scan (some [1, 2, 3, 4, 5])).1.scan_buffer = [1, 2, 3, 4, 5]
    ∧ ([1, 2, 3, 4, 5] = [1, 2, 3, 4, 5] →
        (scan_for_tag (scan_for_tag reset_scan (some [1, 2, 3, 4, 5])).1
          (some [1, 2, 3, 4, 5])).2 = some [1, 2, 3, 4, 5])
    ∧ ([1, 2, 3, 4, 5] ≠ [1, 2, 3, 4, 5] →
        (scan_for_tag (scan_for_tag reset_scan (some [1, 2, 3, 4, 5])).1
          (some [1, 2, 3, 4, 5])).2 = none)
    ∧ (scan_for_tag (scan_for_tag reset_scan (some [1, 2, 3, 4, 5])).1
        (some [1, 2, 3, 4, 5])).1.read_count = 0
    ∧ (scan_for_tag
        (scan_for_tag (scan_for_tag reset_scan (some [1, 2, 3, 4, 5])).1
          (some [1, 2, 3, 4, 5])).1 (some [9, 9, 9, 9, 9])).2 = none) :=
  ⟨rfl, scan_for_tag_debounce reset_scan rfl [1, 2, 3, 4, 5] [1, 2, 3, 4, 5] [9, 9, 9, 9, 9]⟩

/-! ## Session authentication (`src/panopticon/src/tcp.rs`, lines 130-157)

After the first line is read, `handle_connection` trims it, strips the
`"AUTHZ: "` prefix (`anyhow::bail!` on failure), rejects any secret
different from the configured `state.sentinel_secret`, then looks the
secret up in the `sentinels` table and inserts a fresh row when absent.
We model the sentinel store as the list of registered secrets. -/

/-- Whitespace characters trimmed by Rust `str::trim` (restricted to the
ASCII whitespace that can occur in the line-oriented protocol). -/
def isWs (c : Char) : Bool := c == ' ' || c == '\t' || c == '\n' || c == '\r'

/-- Drop leading and trailing whitespace from a character list. -/
def trimChars (l : List Char) : List Char :=
  ((l.dropWhile isWs).reverse.dropWhile isWs).reverse

/-- Rust `str::trim` (on the protocol's ASCII lines). -/
def rustTrim (s : String) : String := ⟨trimChars s.data⟩

/-- Rust `str::strip_prefix`: `Some(rest)` iff the prefix matches. -/
def stripPrefixStr (s p : String) : Option String :=
  if p.data.isPrefixOf s.data then some ⟨s.data.drop p.data.length⟩ else none

/-- Outcome of the authentication phase of `handle_connection`. -/
inductive AuthResult where
  /-- `anyhow::bail!` — connection aborted before any session state. -/
  | closed (err : String)
  /-- Authentication succeeded; the session proceeds to the active message
  loop, with the (possibly extended) sentinel store. -/
  | active (secret : String) (store : List String)
deriving DecidableEq, Repr

/-- The AUTHZ phase (lines 130-157): trim, strip `"AUTHZ: "`, compare with
the configured secret, then look up / self-register the sentinel row. -/
def handle_authz (sentinel_secret : String) (store : List String)
    (line : String) : AuthResult :=
  let trimmed := rustTrim line
  match stripPrefixStr trimmed "AUTHZ: " with
  | none => .closed "Expected AUTHZ message"
  | some secret =>
    if secret ≠ sentinel_secret then .closed "Invalid secret"
    else if secret ∈ store then .active secret store
    else .active secret (store ++ [secret])

/-- **C3** (amended).  A well-formed `AUTHZ: <secret>` line authenticates
iff its secret equals the configured shared `sentinel_secret`: in that case
the session proceeds to the active state, and if the secret has no sentinel
row yet a new identity is registered under it; any other secret — seen or
unseen — is rejected before any device identity is established. -/
theorem handle_authz_spec (cfg : String) (store : List String) (line secret : String)
    (h : stripPrefixStr (rustTrim line) "AUTHZ: " = some secret) :
    (secret = cfg → secret ∉ store →
      handle_authz cfg store line = .active secret (store ++ [secret]))
    ∧ (secret = cfg → secret ∈ store →
      handle_authz cfg store line = .active secret store)
    ∧ (secret ≠ cfg → handle_authz cfg store line = .closed "Invalid secret") := by
  simp only [handle_authz, h]
  refine ⟨?_, ?_, ?_⟩
  · intro he hmem
    subst he
    simp [hmem]
  · intro he hmem
    subst he
    simp [hmem]
  · intro hne
    simp [hne]

/-- **C3** witness: configured secret `"s"`, empty store, line
`"AUTHZ: s"`. -/
theorem handle_authz_spec_witness :
    stripPrefixStr (rustTrim "AUTHZ: s") "AUTHZ: " = some "s" ∧
    (("s" = "s" → "s" ∉ ([] : List String) →
      handle_authz "s" [] "AUTHZ: s" = .active "s" ([] ++ ["s"]))
    ∧ ("s" = "s" → "s" ∈ ([] : List String) →
      handle_authz "s" [] "AUTHZ: s" = .active "s" [])
    ∧ ("s" ≠ "s" → handle_authz "s" [] "AUTHZ: s" = .closed "Invalid secret")) :=
  ⟨by decide, handle_authz_spec "s" [] "AUTHZ: s" "s" (by decide)⟩

/-- **C3** counterexample: the well-formed, never-seen secret `"t"` (the
store is empty) is rejected, because it differs from the configured secret
`"s"` — the claim that every previously-unseen well-formed secret registers
a new identity and proceeds to the active state is false. -/
theorem handle_authz_counterexample :
    stripPrefixStr (rustTrim "AUTHZ: t") "AUTHZ: " = some "t"
    ∧ "t" ∉ ([] : List String)
    ∧ handle_authz "s" [] "AUTHZ: t" = .closed "Invalid secret" := by
  refine ⟨by decide, by simp, by decide⟩

/-! ## Per-device connection counter (`src/panopticon/src/tcp.rs`)

The sentinel row state touched by the two `UPDATE` statements.  In SQL,
every expression on the right-hand side of `SET` reads the pre-update row,
and each `UPDATE` is atomic; an arbitrary interleaving of sessions is an
arbitrary sequence of these two atomic updates. -/

/-- The `connected` / `active_connections` columns of a `sentinels` row
(`active_connections` is an SQL integer, modelled as `Int`). -/
structure SentinelRow where
  connected : Bool
  active_connections : Int
deriving DecidableEq, Repr

/-- Lines 160-166: `UPDATE sentinels SET connected = true,
active_connections = active_connections + 1` — run once per authenticated
session start. -/
def connectUpdate (s : SentinelRow) : SentinelRow :=
  { connected := true, active_connections := s.active_connections + 1 }

/-- Lines 247-256: `UPDATE sentinels SET
active_connections = GREATEST(active_connections - 1, 0),
connected = (active_connections - 1 > 0)` — run once per session end;
both right-hand sides read the pre-update value. -/
def disconnectUpdate (s : SentinelRow) : SentinelRow :=
  { connected := decide (s.active_connections - 1 > 0),
    active_connections := max (s.active_connections - 1) 0 }

/-- A step of the connect/disconnect state machine (one atomic `UPDATE`). -/
inductive ConnOp where
  | connect
  | disconnect
deriving DecidableEq, Repr

def applyConnOp (s : SentinelRow) : ConnOp → SentinelRow
  | .connect => connectUpdate s
  | .disconnect => disconnectUpdate s

/-- The record invariant: `connected` iff the counter is positive, and the
counter never goes negative. -/
def connInvariant (s : SentinelRow) : Prop :=
  (s.connected = true ↔ s.active_connections > 0) ∧ 0 ≤ s.active_connections

instance (s : SentinelRow) : Decidable (connInvariant s) := by
  unfold connInvariant
  infer_instance

lemma connInvariant_step (s : SentinelRow) (h : connInvariant s) (op : ConnOp) :
    connInvariant (applyConnOp s op) := by
  obtain ⟨hc, hn⟩ := h
  cases op
  · constructor
    · simp only [applyConnOp, connectUpdate, eq_self_iff_true, true_iff]
      omega
    · simp only [applyConnOp, connectUpdate]
      omega
  · constructor
    · simp only [applyConnOp, disconnectUpdate, decide_eq_true_eq]
      omega
    · simp only [applyConnOp, disconnectUpdate]
      omega

/-- **C4**.  Each session start (atomic increment-and-set) and each session
end (atomic decrement) preserves `connected = (active_connections > 0)`:
a connect always leaves the row connected with a positive count, a
disconnect leaves `connected = false` exactly when the count has reached
zero, and the invariant is preserved by every finite sequence of these
atomic updates — i.e. under any interleaving of concurrent sessions. -/
theorem connected_counter_invariant (s : SentinelRow) (h : connInvariant s) :
    connInvariant (connectUpdate s)
    ∧ (connectUpdate s).connected = true
    ∧ 0 < (connectUpdate s).active_connections
    ∧ connInvariant (disconnectUpdate s)
    ∧ ((disconnectUpdate s).connected = false ↔
        (disconnectUpdate s).active_connections = 0)
    ∧ ∀ ops : List ConnOp, connInvariant (ops.foldl applyConnOp s) := by
  refine ⟨?_, rfl, ?_, ?_, ?_, ?_⟩
  · exact connInvariant_step s h .connect
  · simp only [connectUpdate]
    obtain ⟨hconn, hpos⟩ := h
    omega
  · exact connInvariant_step s h .disconnect
  · simp only [disconnectUpdate, decide_eq_false_iff_not, decide_eq_true_eq]
    omega
  · intro ops
    induction ops generalizing s with
    | nil => exact h
    | cons op rest ih =>
      rw [List.foldl_cons]
      exact ih _ (connInvariant_step s h op)

/-- **C4** witness: the freshly registered row (`connected = false`,
count `0`) satisfies the invariant, and the theorem's conclusions hold for
it. -/
theorem connected_counter_invariant_witness :
    connInvariant ⟨false, 0⟩
    ∧ (connInvariant (connectUpdate ⟨false, 0⟩)
    ∧ (connectUpdate ⟨false, 0⟩).connected = true
    ∧ 0 < (connectUpdate ⟨false, 0⟩).active_connections
    ∧ connInvariant (disconnectUpdate ⟨false, 0⟩)
    ∧ ((disconnectUpdate ⟨false, 0⟩).connected = false ↔
        (disconnectUpdate ⟨false, 0⟩).active_connections = 0)
    ∧ ∀ ops : List ConnOp, connInvariant (ops.foldl applyConnOp ⟨false, 0⟩)) :=
  ⟨by decide, connected_counter_invariant ⟨false, 0⟩ (by decide)⟩

/-! ## Access decision engine (`src/panopticon/src/sentinel.rs`, lines 112-223)

`process_scan` reads the current mode from `system_config`, then either
enrolls the card (`INSERT ... ON CONFLICT DO NOTHING`) or checks existence
and attempts a vendor unlock, then appends a `scan_log` row and broadcasts
events.  The persistent store is modelled by `Db`; storage statements are
modelled as succeeding (the source maps their failures to
`Err("Database error")`, which is outside these claims' scope).  The
U-Tec vendor client is modelled by the results its two operations would
return; `tracing` log output is not modelled, but every vendor API call is
recorded in order. -/

/-- The rows of the store that `process_scan` touches: the
`sentinel_mode` config value, the `access_cards.tag_id` column and the
`scan_log (tag_id, action)` rows. -/
structure Db where
  mode : String
  cards : List String
  scan_log : List (String × String)
deriving DecidableEq, Repr

/-- A vendor API call performed during a scan. -/
inductive VendorCall where
  | discover_locks
  | unlock (lock : String)
deriving DecidableEq, Repr

/-- The authenticated U-Tec client, modelled by the results of its
operations: `discover_locks()` and `unlock(lock)` (the unlock result is
only ever logged by `process_scan`). -/
structure VendorClient where
  locks : Except String (List String)
  unlock_result : String → Except String Unit

/-- A broadcast `WsEvent` emitted by `process_scan`. -/
inductive ScanEvent where
  | scan (tag action : String)
  | cardAdded (tag : String)
deriving DecidableEq, Repr

/-- What a `process_scan` call produced: the returned action, the updated
store, and the vendor calls and events it performed, in order. -/
structure ScanOutcome where
  action : String
  db : Db
  vendor_calls : List VendorCall
  events : List ScanEvent
deriving Repr

/-- The unlock attempt of the guard/present branch (lines 149-170):
`state.auth_store.client()` absent ⟹ skip with a warning;
otherwise `discover_locks()`, then `unlock` on the first lock if any
(`locks.first()`), the unlock result being matched only for logging. -/
def unlockAttemptCalls (client : Option VendorClient) : List VendorCall :=
  match client with
  | none => []
  | some c =>
    match c.locks with
    | .error _ => [.discover_locks]
    | .ok locks =>
      match locks.head? with
      | none => [.discover_locks]
      | some lock =>
        match c.unlock_result lock with
        | .ok _ => [.discover_locks, .unlock lock]
        | .error _ => [.discover_locks, .unlock lock]

/-- `process_scan` (lines 112-223). -/
def process_scan (db : Db) (client : Option VendorClient) (tag_id : String) :
    Except String ScanOutcome :=
  let mode := db.mode
  if mode = "enroll" then
    let cards := if tag_id ∈ db.cards then db.cards else db.cards ++ [tag_id]
    let action := "enrolled"
    let db' : Db := { db with cards := cards, scan_log := db.scan_log ++ [(tag_id, action)] }
    .ok { action := action
          db := db'
          vendor_calls := []
          events := [.scan tag_id action] ++
            (if tag_id ∈ db'.cards then [.cardAdded tag_id] else []) }
  else
    if tag_id ∈ db.cards then
      let action := "granted"
      .ok { action := action
            db := { db with scan_log := db.scan_log ++ [(tag_id, action)] }
            vendor_calls := unlockAttemptCalls client
            events := [.scan tag_id action] }
    else
      let action := "denied"
      .ok { action := action
            db := { db with scan_log := db.scan_log ++ [(tag_id, action)] }
            vendor_calls := []
            events := [.scan tag_id action] }

/-- **C2**.  In guard mode, a scan of a tag absent from the card store is
denied: the result is the action `"denied"`, no vendor lock API call of any
kind is performed, the card store is untouched, and exactly one scan-log
entry with action `"denied"` is appended. -/
theorem guard_denied_no_vendor_call (db : Db) (client : Option VendorClient)
    (tag : String) (hmode : db.mode = "guard") (habsent : tag ∉ db.cards) :
    process_scan db client tag =
      .ok { action := "denied"
            db := { db with scan_log := db.scan_log ++ [(tag, "denied")] }
            vendor_calls := []
            events := [.scan tag "denied"] } := by
  simp [process_scan, hmode, habsent]

/-- **C2** witness: guard mode, empty card store, unenrolled tag, with an
authenticated vendor client available. -/
theorem guard_denied_no_vendor_call_witness :
    (Db.mk "guard" ["11:22:33:44:55"] []).mode = "guard"
    ∧ "AA:BB:CC:DD:EE" ∉ (Db.mk "guard" ["11:22:33:44:55"] []).cards
    ∧ process_scan (Db.mk "guard" ["11:22:33:44:55"] [])
        (some ⟨.ok ["lock1"], fun _ => .ok ()⟩) "AA:BB:CC:DD:EE" =
      .ok { action := "denied"
            db := { Db.mk "guard" ["11:22:33:44:55"] [] with
                    scan_log := [] ++ [("AA:BB:CC:DD:EE", "denied")] }
            vendor_calls := []
            events := [.scan "AA:BB:CC:DD:EE" "denied"] } :=
  ⟨rfl, by simp,
   guard_denied_no_vendor_call (Db.mk "guard" ["11:22:33:44:55"] [])
     (some ⟨.ok ["lock1"], fun _ => .ok ()⟩) "AA:BB:CC:DD:EE" rfl (by simp)⟩

/-- **C5**.  In guard mode, a scan of an enrolled tag is granted regardless
of the vendor unlock outcome: for every vendor configuration — no
authenticated client, failing discovery, an account with zero locks, or a
failing unlock command — `process_scan` returns `Ok` with action
`"granted"` (never `"denied"`, never an error), performing exactly the
vendor calls of the attempted unlock. -/
theorem guard_granted_vendor_immune (db : Db) (client : Option VendorClient)
    (tag : String) (hmode : db.mode = "guard") (hpresent : tag ∈ db.cards) :
    process_scan db client tag =
      .ok { action := "granted"
            db := { db with scan_log := db.scan_log ++ [(tag, "granted")] }
            vendor_calls := unlockAttemptCalls client
            events := [.scan tag "granted"] } := by
  simp [process_scan, hmode, hpresent]

/-- **C5** witness: guard mode with the tag enrolled and a client whose
discovery succeeds with one lock but whose unlock command fails. -/
theorem guard_granted_vendor_immune_witness :
    (Db.mk "guard" ["AA:BB:CC:DD:EE"] []).mode = "guard"
    ∧ "AA:BB:CC:DD:EE" ∈ (Db.mk "guard" ["AA:BB:CC:DD:EE"] []).cards
    ∧ process_scan (Db.mk "guard" ["AA:BB:CC:DD:EE"] [])
        (some ⟨.ok ["lock1"], fun _ => .error "vendor timeout"⟩) "AA:BB:CC:DD:EE" =
      .ok { action := "granted"
            db := { Db.mk "guard" ["AA:BB:CC:DD:EE"] [] with
                    scan_log := [] ++ [("AA:BB:CC:DD:EE", "granted")] }
            vendor_calls := unlockAttemptCalls
              (some ⟨.ok ["lock1"], fun _ => .error "vendor timeout"⟩)
            events := [.scan "AA:BB:CC:DD:EE" "granted"] } :=
  ⟨rfl, by simp,
   guard_granted_vendor_immune (Db.mk "guard" ["AA:BB:CC:DD:EE"] [])
     (some ⟨.ok ["lock1"], fun _ => .error "vendor timeout"⟩) "AA:BB:CC:DD:EE"
     rfl (by simp)⟩

lemma process_scan_enroll (db : Db) (client : Option VendorClient) (tag : String)
    (hmode : db.mode = "enroll") :
    process_scan db client tag =
      .ok { action := "enrolled"
            db := { db with
                    cards := if tag ∈ db.cards then db.cards else db.cards ++ [tag],
                    scan_log := db.scan_log ++ [(tag, "enrolled")] }
            vendor_calls := []
            events := [.scan tag "enrolled", .cardAdded tag] } := by
  by_cases hmem : tag ∈ db.cards <;> simp [process_scan, hmode, hmem]

/-- **C6**.  Enrollment is idempotent set-insertion: in enroll mode every
scan returns `Ok` with action `"enrolled"`; when the tag is already present
the card store is left exactly unchanged; and two consecutive enroll scans
of the same tag leave exactly one matching card row while both return
`"enrolled"`. -/
theorem enroll_idempotent (db : Db) (client client2 : Option VendorClient)
    (tag : String) (hmode : db.mode = "enroll") (out1 out2 : ScanOutcome)
    (h1 : process_scan db client tag = .ok out1)
    (h2 : process_scan out1.db client2 tag = .ok out2) :
    out1.action = "enrolled"
    ∧ out2.action = "enrolled"
    ∧ (tag ∈ db.cards → out1.db.cards = db.cards)
    ∧ out2.db.cards = out1.db.cards
    ∧ (tag ∉ db.cards → out2.db.cards.count tag = db.cards.count tag + 1)
    ∧ out2.db.scan_log = db.scan_log ++ [(tag, "enrolled"), (tag, "enrolled")] := by
  rw [process_scan_enroll db client tag hmode] at h1
  injection h1 with h1
  subst h1
  have hmode2 : ({ db with
      cards := if tag ∈ db.cards then db.cards else db.cards ++ [tag],
      scan_log := db.scan_log ++ [(tag, "enrolled")] } : Db).mode = "enroll" := hmode
  rw [process_scan_enroll _ client2 tag hmode2] at h2
  injection h2 with h2
  subst h2
  refine ⟨rfl, rfl, fun hmem => by simp [hmem], ?_, ?_, by simp⟩
  · by_cases hmem : tag ∈ db.cards <;> simp [hmem]
  · intro hab
    simp [hab, List.count_append]

/-- **C6** witness: enrolling `"AA:BB:CC:DD:EE"` twice into an initially
empty store. -/
theorem enroll_idempotent_witness :
    (Db.mk "enroll" [] []).mode = "enroll"
    ∧ process_scan (Db.mk "enroll" [] []) none "AA:BB:CC:DD:EE" =
        .ok { action := "enrolled"
              db := Db.mk "enroll" ["AA:BB:CC:DD:EE"] [("AA:BB:CC:DD:EE", "enrolled")]
              vendor_calls := []
              events := [.scan "AA:BB:CC:DD:EE" "enrolled", .cardAdded "AA:BB:CC:DD:EE"] }
    ∧ ("enrolled" = "enrolled"
      ∧ "enrolled" = "enrolled"
      ∧ ("AA:BB:CC:DD:EE" ∈ (Db.mk "enroll" [] []).cards →
          ["AA:BB:CC:DD:EE"] = (Db.mk "enroll" [] []).cards)
      ∧ ["AA:BB:CC:DD:EE"] = (["AA:BB:CC:DD:EE"] : List String)
      ∧ ("AA:BB:CC:DD:EE" ∉ (Db.mk "enroll" [] []).cards →
          (["AA:BB:CC:DD:EE"] : List String).count "AA:BB:CC:DD:EE" =
            (Db.mk "enroll" [] []).cards.count "AA:BB:CC:DD:EE" + 1)
      ∧ ([("AA:BB:CC:DD:EE", "enrolled"), ("AA:BB:CC:DD:EE", "enrolled")] :
            List (String × String)) =
          (Db.mk "enroll" [] []).scan_log ++
            [("AA:BB:CC:DD:EE", "enrolled"), ("AA:BB:CC:DD:EE", "enrolled")]) := by
  have hw := enroll_idempotent (Db.mk "enroll" [] []) none none "AA:BB:CC:DD:EE" rfl
    { action := "enrolled"
      db := Db.mk "enroll" ["AA:BB:CC:DD:EE"] [("AA:BB:CC:DD:EE", "enrolled")]
      vendor_calls := []
      events := [.scan "AA:BB:CC:DD:EE" "enrolled", .cardAdded "AA:BB:CC:DD:EE"] }
    { action := "enrolled"
      db := Db.mk "enroll" ["AA:BB:CC:DD:EE"]
        [("AA:BB:CC:DD:EE", "enrolled"), ("AA:BB:CC:DD:EE", "enrolled")]
      vendor_calls := []
      events := [.scan "AA:BB:CC:DD:EE" "enrolled", .cardAdded "AA:BB:CC:DD:EE"] }
    (by simp [process_scan]) (by simp [process_scan])
  exact ⟨rfl, by simp [process_scan], hw⟩

/-! ## Deferred command resolver (`src/panopticon/src/api.rs`)

`handle_lock_response` (lines 187-252): when a lock/unlock response carries
no lock state but a `st.deferredResponse` wait value, the reported seconds
are clamped to `MAX_DEFERRED_WAIT_SECS` and a background task is spawned
that sleeps once, re-checks the vendor client, and — only when one is still
authenticated — performs a single `query_device` call. -/

/-- Maximum seconds we'll wait for a deferred lock response (line 180). -/
def MAX_DEFERRED_WAIT_SECS : Nat := 60

/-- The clamping of the reported wait value (lines 205-213):
`if seconds > MAX_DEFERRED_WAIT_SECS { MAX_DEFERRED_WAIT_SECS } else { seconds }`.
The Rust value is a `u64` obtained from `as_u64`; the clamp is identical on
`Nat`. -/
def deferredWaitSecs (seconds : Nat) : Nat :=
  if seconds > MAX_DEFERRED_WAIT_SECS then MAX_DEFERRED_WAIT_SECS else seconds

/-- An observable step of the spawned resolver task. -/
inductive ResolverStep where
  | sleep (secs : Nat)
  | queryDevice
deriving DecidableEq, Repr

/-- The spawned resolver task (lines 218-245): one
`tokio::time::sleep(Duration::from_secs(seconds))` with the clamped value;
then `state.auth_store.client().await` is re-checked —
`let Some(client) = … else { error!(…); return }` (lines 222-225) ends the
task without any query when no vendor client is authenticated, and
otherwise exactly one `client.query_device(&device)` call follows (its
result is only broadcast/logged). -/
def resolverTrace (seconds : Nat) (client : Option VendorClient) : List ResolverStep :=
  .sleep (deferredWaitSecs seconds) ::
    (match client with
     | none => []
     | some _ => [.queryDevice])

/-- **C10**.  The resolver task always sleeps first, for exactly `min w 60`
seconds — never longer than the cap: every value above the cap is clamped
to `60` (`61 + w` ranges over all values above the cap) and every value at
or below the cap is used as-is (`min w 60` ranges over all values at or
below the cap).  After the sleep it performs its single device query when a
vendor client is authenticated, and no query at all otherwise. -/
theorem deferred_wait_clamped (w : Nat) (client : Option VendorClient) (c : VendorClient) :
    resolverTrace w client =
      .sleep (min w MAX_DEFERRED_WAIT_SECS) ::
        (match client with
         | none => []
         | some _ => [.queryDevice])
    ∧ resolverTrace w (some c) =
        [.sleep (min w MAX_DEFERRED_WAIT_SECS), .queryDevice]
    ∧ resolverTrace w none = [.sleep (min w MAX_DEFERRED_WAIT_SECS)]
    ∧ deferredWaitSecs w ≤ MAX_DEFERRED_WAIT_SECS
    ∧ deferredWaitSecs (MAX_DEFERRED_WAIT_SECS + 1 + w) = MAX_DEFERRED_WAIT_SECS
    ∧ deferredWaitSecs (min w MAX_DEFERRED_WAIT_SECS) = min w MAX_DEFERRED_WAIT_SECS := by
  have hmin : deferredWaitSecs w = min w MAX_DEFERRED_WAIT_SECS := by
    simp only [deferredWaitSecs, MAX_DEFERRED_WAIT_SECS]
    split <;> omega
  refine ⟨?_, ?_, ?_, by rw [hmin]; omega, ?_, ?_⟩
  · unfold resolverTrace
    rw [hmin]
  · unfold resolverTrace
    rw [hmin]
  · unfold resolverTrace
    rw [hmin]
  · simp only [deferredWaitSecs, MAX_DEFERRED_WAIT_SECS]
    split <;> omega
  · simp only [deferredWaitSecs, MAX_DEFERRED_WAIT_SECS]
    split <;> omega

/-! ## Bounded line reading and the active message loop
(`src/panopticon/src/tcp.rs`)

`read_limited_line` reads from a `BufReader` through `fill_buf`/`consume`.
We model the reader as the already-buffered bytes plus the list of byte
groups that successive socket reads will deliver (one list entry per
`fill_buf` refill); bytes are `Nat` (values 0-255).
-/

/-- Maximum allowed line length from a sentinel (8 KiB). -/
def MAX_LINE_LENGTH : Nat := 8192

/-- The buffered TCP reader: `buf` is what has been filled but not yet
consumed; `chunks` are the byte groups future socket reads will deliver. -/
structure Reader where
  buf : List Nat
  chunks : List (List Nat)
deriving DecidableEq, Repr

/-- The two `io::Error`s `read_limited_line` constructs; both use
`ErrorKind::InvalidData`. -/
inductive ReadErr where
  | oversized
  | nonUtf8
deriving DecidableEq, Repr

/-- `e.kind() == ErrorKind::InvalidData` — true for both errors. -/
def ReadErr.isInvalidData : ReadErr → Bool := fun _ => true

/-- A UTF-8 continuation byte (`0x80..=0xBF`). -/
def utf8Cont (b : Nat) : Bool := 0x80 ≤ b && b ≤ 0xBF

/-- `std::str::from_utf8` validity (RFC 3629 well-formedness). -/
def valid_utf8 : List Nat → Bool
  | [] => true
  | b :: rest =>
    if b ≤ 0x7F then valid_utf8 rest
    else if 0xC2 ≤ b && b ≤ 0xDF then
      match rest with
      | b2 :: r => utf8Cont b2 && valid_utf8 r
      | [] => false
    else if b == 0xE0 then
      match rest with
      | b2 :: b3 :: r => (0xA0 ≤ b2 && b2 ≤ 0xBF) && utf8Cont b3 && valid_utf8 r
      | _ => false
    else if (0xE1 ≤ b && b ≤ 0xEC) || b == 0xEE || b == 0xEF then
      match rest with
      | b2 :: b3 :: r => utf8Cont b2 && utf8Cont b3 && valid_utf8 r
      | _ => false
    else if b == 0xED then
      match rest with
      | b2 :: b3 :: r => (0x80 ≤ b2 && b2 ≤ 0x9F) && utf8Cont b3 && valid_utf8 r
      | _ => false
    else if b == 0xF0 then
      match rest with
      | b2 :: b3 :: b4 :: r =>
        (0x90 ≤ b2 && b2 ≤ 0xBF) && utf8Cont b3 && utf8Cont b4 && valid_utf8 r
      | _ => false
    else if 0xF1 ≤ b && b ≤ 0xF3 then
      match rest with
      | b2 :: b3 :: b4 :: r => utf8Cont b2 && utf8Cont b3 && utf8Cont b4 && valid_utf8 r
      | _ => false
    else if b == 0xF4 then
      match rest with
      | b2 :: b3 :: b4 :: r =>
        (0x80 ≤ b2 && b2 ≤ 0x8F) && utf8Cont b3 && utf8Cont b4 && valid_utf8 r
      | _ => false
    else false

/-- The drain loop of the oversized branch (lines 40-51): pop socket reads
until one contains the newline, consuming through it. -/
def drain_line : List (List Nat) → Reader
  | [] => ⟨[], []⟩
  | c :: cs =>
    if c = [] then ⟨[], cs⟩
    else
      match c.findIdx? (fun b => b == 10) with
      | some pos => ⟨c.drop (pos + 1), cs⟩
      | none => drain_line cs

/-- Result of processing one `fill_buf` chunk. -/
inductive StepRes where
  | done (res : Except ReadErr (List Nat × Nat)) (r : Reader)
  | cont (acc : List Nat) (total : Nat)

/-- One iteration of the `read_limited_line` loop (lines 22-76), given the
available bytes from `fill_buf`: find the newline (`memchr`), enforce the
length bound (draining when the newline has not been seen), then the UTF-8
check, consuming exactly the examined chunk in every branch. -/
def read_avail (available : List Nat) (cs : List (List Nat))
    (acc : List Nat) (total : Nat) : StepRes :=
  match available.findIdx? (fun b => b == 10) with
  | some pos =>
    let chunk := available.take (pos + 1)
    let total' := total + chunk.length
    if total' > MAX_LINE_LENGTH then
      .done (.error .oversized) ⟨available.drop (pos + 1), cs⟩
    else if valid_utf8 chunk then
      .done (.ok (acc ++ chunk, total')) ⟨available.drop (pos + 1), cs⟩
    else
      .done (.error .nonUtf8) ⟨available.drop (pos + 1), cs⟩
  | none =>
    let total' := total + available.length
    if total' > MAX_LINE_LENGTH then
      .done (.error .oversized) (drain_line cs)
    else if valid_utf8 available then
      .cont (acc ++ available) total'
    else
      .done (.error .nonUtf8) ⟨[], cs⟩

/-- The `read_limited_line` loop over the successive `fill_buf` results:
an empty read is EOF (`return Ok(total)` with the partial line in the
buffer). -/
def read_limited_line_aux (acc : List Nat) (total : Nat) :
    List (List Nat) → Except ReadErr (List Nat × Nat) × Reader
  | [] => (.ok (acc, total), ⟨[], []⟩)
  | c :: cs =>
    if c = [] then (.ok (acc, total), ⟨[], cs⟩)
    else
      match read_avail c cs acc total with
      | .done res r => (res, r)
      | .cont acc' total' => read_limited_line_aux acc' total' cs

deriving instance DecidableEq for Except

/-- `read_limited_line` (lines 16-77): clear the line buffer, then loop;
the first `fill_buf` returns the reader's unconsumed buffer when it is
nonempty, and the next socket read otherwise. -/
def read_limited_line (r : Reader) : Except ReadErr (List Nat × Nat) × Reader :=
  match r.buf with
  | [] => read_limited_line_aux [] 0 r.chunks
  | b :: bs =>
    match read_avail (b :: bs) r.chunks [] 0 with
    | .done res r' => (res, r')
    | .cont acc' total' => read_limited_line_aux acc' total' r.chunks

/-- All bytes the reader has not yet delivered to the parser. -/
def flattenR (r : Reader) : List Nat := r.buf ++ r.chunks.flatten

/-- The sequence of `fill_buf` results a fresh `read_limited_line` call will
see: the unconsumed buffer first when nonempty, then the socket reads. -/
def readInput (r : Reader) : List (List Nat) :=
  if r.buf = [] then r.chunks else r.buf :: r.chunks

lemma readInput_flatten (r : Reader) : (readInput r).flatten = flattenR r := by
  rcases r with ⟨buf, chunks⟩
  by_cases h : buf = [] <;> simp [readInput, flattenR, h]

lemma readInput_ne (r : Reader) (h : ∀ c ∈ r.chunks, c ≠ []) :
    ∀ c ∈ readInput r, c ≠ [] := by
  rcases r with ⟨buf, chunks⟩
  by_cases hb : buf = [] <;> simp only [readInput, hb, if_true, if_false, reduceIte]
  · exact h
  · intro c hc
    rcases List.mem_cons.mp hc with rfl | hc'
    · exact hb
    · exact h c hc'

lemma read_limited_line_eq (r : Reader) :
    read_limited_line r = read_limited_line_aux [] 0 (readInput r) := by
  rcases r with ⟨buf, chunks⟩
  rcases buf with _ | ⟨b, bs⟩
  · rfl
  · simp only [readInput, reduceCtorEq, if_false]
    rw [read_limited_line_aux]
    simp only [reduceCtorEq, if_false]
    rfl

set_option maxHeartbeats 1000000 in
lemma valid_utf8_ascii (l : List Nat) (h : ∀ b ∈ l, b < 128) :
    valid_utf8 l = true := by
  induction l with
  | nil => rfl
  | cons b rest ih =>
    have hb : b < 128 := h b (List.mem_cons_self b rest)
    have hr := ih (fun x hx => h x (List.mem_cons_of_mem b hx))
    rcases rest with _ | ⟨b2, _ | ⟨b3, _ | ⟨b4, r⟩⟩⟩ <;> interval_cases b <;> exact hr

lemma findIdx?_no_nl (l : List Nat) (h : ∀ b ∈ l, b ≠ 10) :
    l.findIdx? (fun b => b == 10) = none := by
  rw [List.findIdx?_eq_none_iff]
  intro x hx
  simp [h x hx]

lemma findIdx?_first_nl (pre rest : List Nat) (h : ∀ b ∈ pre, b ≠ 10) :
    (pre ++ 10 :: rest).findIdx? (fun b => b == 10) = some pre.length := by
  rw [List.findIdx?_append, findIdx?_no_nl pre h]
  simp [List.findIdx?_cons]

lemma drain_line_spec :
    ∀ (cs : List (List Nat)) (pre rest : List Nat),
      (∀ c ∈ cs, c ≠ []) →
      cs.flatten = pre ++ 10 :: rest →
      (∀ b ∈ pre, b ≠ 10) →
      flattenR (drain_line cs) = rest ∧ (∀ c ∈ (drain_line cs).chunks, c ≠ []) := by
  intro cs
  induction cs with
  | nil =>
    intro pre rest _ hj _
    simp only [List.flatten_nil] at hj
    exact absurd hj.symm (by simp)
  | cons c cs ih =>
    intro pre rest hne hj hpre
    have hc : c ≠ [] := hne c (List.mem_cons_self c cs)
    have hne' : ∀ x ∈ cs, x ≠ [] := fun x hx => hne x (List.mem_cons_of_mem c hx)
    rw [List.flatten_cons] at hj
    rw [drain_line]
    rw [if_neg hc]
    rcases List.append_eq_append_iff.mp hj with ⟨a', ha1, ha2⟩ | ⟨c', hc1, hc2⟩
    · -- c is a prefix of pre
      have hcnl : ∀ b ∈ c, b ≠ 10 := fun b hb => hpre b (ha1 ▸ List.mem_append_left a' hb)
      rw [findIdx?_no_nl c hcnl]
      exact ih a' rest hne' ha2 (fun b hb => hpre b (ha1 ▸ List.mem_append_right c hb))
    · rcases c' with _ | ⟨x, c''⟩
      · -- c = pre, the newline opens cs
        simp only [List.append_nil] at hc1
        subst hc1
        rw [findIdx?_no_nl c hpre]
        exact ih [] rest hne' hc2.symm (by simp)
      · -- c = pre ++ x :: c'' with x = 10
        obtain ⟨hx, hrest⟩ := List.cons.injEq 10 rest x (c'' ++ cs.flatten) ▸ hc2
        subst hc1
        subst hx
        rw [findIdx?_first_nl pre c'' hpre]
        constructor
        · simp [flattenR, List.drop_append, hrest]
        · exact hne'


lemma ascii_append_nl (line : List Nat) (h : ∀ b ∈ line, b < 128 ∧ b ≠ 10) :
    ∀ b ∈ line ++ [10], b < 128 := by
  intro b hb
  rcases List.mem_append.mp hb with hb' | hb'
  · exact (h b hb').1
  · simp only [List.mem_singleton] at hb'
    omega

lemma read_aux_ok :
    ∀ (cs : List (List Nat)) (acc : List Nat) (total : Nat) (line rest : List Nat),
      (∀ c ∈ cs, c ≠ []) →
      cs.flatten = line ++ 10 :: rest →
      (∀ b ∈ line, b < 128 ∧ b ≠ 10) →
      total + line.length + 1 ≤ MAX_LINE_LENGTH →
      ∃ r', read_limited_line_aux acc total cs =
            (.ok (acc ++ line ++ [10], total + line.length + 1), r')
          ∧ flattenR r' = rest ∧ (∀ c ∈ r'.chunks, c ≠ []) := by
  intro cs
  induction cs with
  | nil =>
    intro acc total line rest _ hj _ _
    exact absurd hj.symm (by simp)
  | cons c cs ih =>
    intro acc total line rest hne hj hline hlen
    have hc : c ≠ [] := hne c (List.mem_cons_self c cs)
    have hne' : ∀ x ∈ cs, x ≠ [] := fun x hx => hne x (List.mem_cons_of_mem c hx)
    rw [List.flatten_cons] at hj
    rw [read_limited_line_aux, if_neg hc]
    rcases List.append_eq_append_iff.mp hj with ⟨a', ha1, ha2⟩ | ⟨c', hc1, hc2⟩
    · -- the socket read `c` is a proper prefix of the line
      subst ha1
      have hcb : ∀ b ∈ c, b < 128 ∧ b ≠ 10 :=
        fun b hb => hline b (List.mem_append_left a' hb)
      have hab : ∀ b ∈ a', b < 128 ∧ b ≠ 10 :=
        fun b hb => hline b (List.mem_append_right c hb)
      have hlen' : (total + c.length) + a'.length + 1 ≤ MAX_LINE_LENGTH := by
        simp only [List.length_append] at hlen
        omega
      have hav : read_avail c cs acc total = .cont (acc ++ c) (total + c.length) := by
        simp only [read_avail]
        rw [findIdx?_no_nl c (fun b hb => (hcb b hb).2)]
        rw [if_neg (by simp only [List.length_append] at hlen; omega)]
        rw [if_pos (valid_utf8_ascii c (fun b hb => (hcb b hb).1))]
      rw [hav]
      dsimp only
      obtain ⟨r', he, hf, hn⟩ :=
        ih (acc ++ c) (total + c.length) a' rest hne' ha2 hab hlen'
      refine ⟨r', ?_, hf, hn⟩
      have hlst : acc ++ c ++ a' ++ [10] = acc ++ (c ++ a') ++ [10] := by simp
      have hnum : total + c.length + a'.length + 1 = total + (c ++ a').length + 1 := by
        simp only [List.length_append]
        omega
      rw [he, hlst, hnum]
    · rcases c' with _ | ⟨x, c''⟩
      · -- c is exactly the line prefix read so far; the newline opens cs
        simp only [List.append_nil] at hc1
        subst hc1
        have hav : read_avail c cs acc total = .cont (acc ++ c) (total + c.length) := by
          simp only [read_avail]
          rw [findIdx?_no_nl c (fun b hb => (hline b hb).2)]
          rw [if_neg (by omega)]
          rw [if_pos (valid_utf8_ascii c (fun b hb => (hline b hb).1))]
        rw [hav]
        dsimp only
        obtain ⟨r', he, hf, hn⟩ :=
          ih (acc ++ c) (total + c.length) [] rest hne' hc2.symm (by simp)
            (by simp only [List.length_nil]; omega)
        refine ⟨r', ?_, hf, hn⟩
        have hlst : acc ++ c ++ [] ++ [10] = acc ++ c ++ [10] := by simp
        have hnum : total + c.length + List.length ([] : List Nat) + 1 = total + c.length + 1 := by
          simp
        rw [he, hlst, hnum]
      · -- the newline is inside c: c = line-remainder ++ 10 :: c''
        obtain ⟨hx, hrest⟩ := List.cons.injEq 10 rest x (c'' ++ cs.flatten) ▸ hc2
        subst hc1
        subst hx
        have htake : (line ++ 10 :: c'').take (line.length + 1) = line ++ [10] := by
          have h1 := @List.take_append Nat line (10 :: c'') 1
          simpa using h1
        have hdrop : (line ++ 10 :: c'').drop (line.length + 1) = c'' := by
          have h1 := @List.drop_append Nat line (10 :: c'') 1
          simpa using h1
        have hav : read_avail (line ++ 10 :: c'') cs acc total =
            .done (.ok (acc ++ (line ++ [10]), total + (line ++ [10]).length))
              ⟨c'', cs⟩ := by
          simp only [read_avail]
          rw [findIdx?_first_nl line c'' (fun b hb => (hline b hb).2)]
          dsimp only
          rw [htake, hdrop]
          rw [if_neg (by simp only [List.length_append, List.length_singleton]; omega)]
          rw [if_pos (valid_utf8_ascii (line ++ [10]) (ascii_append_nl line hline))]
        rw [hav]
        refine ⟨⟨c'', cs⟩, ?_, ?_, hne'⟩
        · dsimp only
          have hlst : acc ++ (line ++ [10]) = acc ++ line ++ [10] := by simp
          have hnum : total + (line ++ [10]).length = total + line.length + 1 := by
            simp only [List.length_append, List.length_singleton]
            omega
          rw [hlst, hnum]
        · simp only [flattenR, hrest]


lemma read_aux_oversized :
    ∀ (cs : List (List Nat)) (acc : List Nat) (total : Nat) (pre rest : List Nat),
      (∀ c ∈ cs, c ≠ []) →
      cs.flatten = pre ++ 10 :: rest →
      (∀ b ∈ pre, b < 128 ∧ b ≠ 10) →
      MAX_LINE_LENGTH < total + pre.length + 1 →
      ∃ r', read_limited_line_aux acc total cs = (.error .oversized, r')
          ∧ flattenR r' = rest ∧ (∀ c ∈ r'.chunks, c ≠ []) := by
  intro cs
  induction cs with
  | nil =>
    intro acc total pre rest _ hj _ _
    exact absurd hj.symm (by simp)
  | cons c cs ih =>
    intro acc total pre rest hne hj hpre hlen
    have hc : c ≠ [] := hne c (List.mem_cons_self c cs)
    have hne' : ∀ x ∈ cs, x ≠ [] := fun x hx => hne x (List.mem_cons_of_mem c hx)
    rw [List.flatten_cons] at hj
    rw [read_limited_line_aux, if_neg hc]
    rcases List.append_eq_append_iff.mp hj with ⟨a', ha1, ha2⟩ | ⟨c', hc1, hc2⟩
    · -- the socket read `c` is a prefix of the oversized line
      subst ha1
      have hcb : ∀ b ∈ c, b < 128 ∧ b ≠ 10 :=
        fun b hb => hpre b (List.mem_append_left a' hb)
      have hab : ∀ b ∈ a', b < 128 ∧ b ≠ 10 :=
        fun b hb => hpre b (List.mem_append_right c hb)
      by_cases hov : total + c.length > MAX_LINE_LENGTH
      · -- the bound is already exceeded: drain and fail
        have hav : read_avail c cs acc total = .done (.error .oversized) (drain_line cs) := by
          simp only [read_avail]
          rw [findIdx?_no_nl c (fun b hb => (hcb b hb).2)]
          rw [if_pos hov]
        rw [hav]
        obtain ⟨hd1, hd2⟩ := drain_line_spec cs a' rest hne' ha2
          (fun b hb => (hab b hb).2)
        exact ⟨drain_line cs, rfl, hd1, hd2⟩
      · -- keep accumulating
        have hav : read_avail c cs acc total = .cont (acc ++ c) (total + c.length) := by
          simp only [read_avail]
          rw [findIdx?_no_nl c (fun b hb => (hcb b hb).2)]
          rw [if_neg hov]
          rw [if_pos (valid_utf8_ascii c (fun b hb => (hcb b hb).1))]
        rw [hav]
        dsimp only
        exact ih (acc ++ c) (total + c.length) a' rest hne' ha2 hab
          (by simp only [List.length_append] at hlen; omega)
    · rcases c' with _ | ⟨x, c''⟩
      · -- c is exactly the pre prefix; the newline opens cs
        simp only [List.append_nil] at hc1
        subst hc1
        by_cases hov : total + c.length > MAX_LINE_LENGTH
        · have hav : read_avail c cs acc total =
              .done (.error .oversized) (drain_line cs) := by
            simp only [read_avail]
            rw [findIdx?_no_nl c (fun b hb => (hpre b hb).2)]
            rw [if_pos hov]
          rw [hav]
          obtain ⟨hd1, hd2⟩ := drain_line_spec cs [] rest hne' hc2.symm (by simp)
          exact ⟨drain_line cs, rfl, hd1, hd2⟩
        · have hav : read_avail c cs acc total = .cont (acc ++ c) (total + c.length) := by
            simp only [read_avail]
            rw [findIdx?_no_nl c (fun b hb => (hpre b hb).2)]
            rw [if_neg hov]
            rw [if_pos (valid_utf8_ascii c (fun b hb => (hpre b hb).1))]
          rw [hav]
          dsimp only
          exact ih (acc ++ c) (total + c.length) [] rest hne' hc2.symm (by simp)
            (by simp only [List.length_nil]; omega)
      · -- the newline is inside c
        obtain ⟨hx, hrest⟩ := List.cons.injEq 10 rest x (c'' ++ cs.flatten) ▸ hc2
        subst hc1
        subst hx
        have hdrop : (pre ++ 10 :: c'').drop (pre.length + 1) = c'' := by
          have h1 := @List.drop_append Nat pre (10 :: c'') 1
          simpa using h1
        have hav : read_avail (pre ++ 10 :: c'') cs acc total =
            .done (.error .oversized) ⟨c'', cs⟩ := by
          simp only [read_avail]
          rw [findIdx?_first_nl pre c'' (fun b hb => (hpre b hb).2)]
          dsimp only
          rw [hdrop]
          rw [if_pos ?_]
          have htk : ((pre ++ 10 :: c'').take (pre.length + 1)).length = pre.length + 1 := by
            rw [List.length_take]
            simp only [List.length_append, List.length_cons]
            omega
          rw [htk]
          omega
        rw [hav]
        refine ⟨⟨c'', cs⟩, rfl, ?_, hne'⟩
        simp only [flattenR, hrest]


/-! Active-loop message dispatch (`handle_connection`, lines 176-233),
modelled over the line's bytes (the protocol is ASCII). -/

/-- Whitespace bytes removed by `str::trim` on the protocol's ASCII lines. -/
def isWsByte (b : Nat) : Bool := b == 32 || b == 9 || b == 10 || b == 13

/-- `line.trim()` at the byte level. -/
def trimBytes (l : List Nat) : List Nat :=
  ((l.dropWhile isWsByte).reverse.dropWhile isWsByte).reverse

/-- `str::strip_prefix` at the byte level. -/
def stripPrefixBytes (l p : List Nat) : Option (List Nat) :=
  if p.isPrefixOf l then some (l.drop p.length) else none

/-- `"LOG: "`. -/
def LOG_PREFIX : List Nat := [76, 79, 71, 58, 32]

/-- `"SCAN: "`. -/
def SCAN_PREFIX : List Nat := [83, 67, 65, 78, 58, 32]

/-- `char::is_ascii_hexdigit`. -/
def isAsciiHexDigitByte (b : Nat) : Bool :=
  (48 ≤ b && b ≤ 57) || (65 ≤ b && b ≤ 70) || (97 ≤ b && b ≤ 102)

/-- `char::is_ascii_lowercase`. -/
def isAsciiLowercaseByte (b : Nat) : Bool := 97 ≤ b && b ≤ 122

/-- `is_valid_tag_id` (`sentinel.rs`, lines 95-106): five colon-separated
groups, each exactly two uppercase hex digits. -/
def is_valid_tag_id (l : List Nat) : Bool :=
  let parts := l.splitOn 58
  parts.length == 5 &&
    parts.all fun part =>
      part.length == 2 &&
        part.all fun c => isAsciiHexDigitByte c && !isAsciiLowercaseByte c

/-- What one iteration of the active message loop does with one read. -/
inductive LoopAction where
  | stop
  | skip
  | logMsg (payload : List Nat)
  | scanTag (tag : List Nat)
  | badScan (tag : List Nat)
  | unknown (line : List Nat)
deriving DecidableEq, Repr

/-- The dispatch on a successfully read line (lines 191-233): trim, skip
empty lines, then the strict `LOG: ` / `SCAN: ` prefix match; a malformed
tag id is logged and ignored; unknown shapes are logged and ignored. -/
def dispatch (line : List Nat) : LoopAction :=
  let trimmed := trimBytes line
  if trimmed = [] then .skip
  else
    match stripPrefixBytes trimmed LOG_PREFIX with
    | some payload => .logMsg payload
    | none =>
      match stripPrefixBytes trimmed SCAN_PREFIX with
      | some tag => if is_valid_tag_id tag then .scanTag tag else .badScan tag
      | none => .unknown trimmed

/-- The match on the read result (lines 178-189): `Ok(0)` is EOF (break),
an `InvalidData` error skips just that line (`continue`), any other read
error breaks, and a successful read is dispatched. -/
def handle_read : Except ReadErr (List Nat × Nat) → LoopAction
  | .ok (_, 0) => .stop
  | .ok (line, _ + 1) => dispatch line
  | .error e => if e.isInvalidData then .skip else .stop

/-- **C7** (amended): an oversized line of ASCII bytes (as protocol lines
are) is, under any chunk delivery, rejected with an error and drained
through its newline, and the connection keeps its framing: the next line is
read and dispatched normally.  The ASCII restriction is necessary: when a
delivered chunk of the oversized line fails UTF-8 validation before the
cumulative length crosses the bound, the UTF-8 check (lines 59-68) fires
first and no drain happens — see
`oversized_line_nonutf8_counterexample`. -/
theorem oversized_line_recovery (r : Reader) (pre line rest : List Nat)
    (hne : ∀ c ∈ r.chunks, c ≠ [])
    (hflat : flattenR r = pre ++ 10 :: (line ++ 10 :: rest))
    (hpre : ∀ b ∈ pre, b < 128 ∧ b ≠ 10)
    (hlen : MAX_LINE_LENGTH ≤ pre.length)
    (hline : ∀ b ∈ line, b < 128 ∧ b ≠ 10)
    (hlinelen : line.length + 1 ≤ MAX_LINE_LENGTH) :
    (read_limited_line r).1 = .error .oversized
    ∧ handle_read (read_limited_line r).1 = .skip
    ∧ (read_limited_line (read_limited_line r).2).1 =
        .ok (line ++ [10], line.length + 1)
    ∧ handle_read (read_limited_line (read_limited_line r).2).1 =
        dispatch (line ++ [10]) := by
  obtain ⟨r1, he1, hf1, hn1⟩ :=
    read_aux_oversized (readInput r) [] 0 pre (line ++ 10 :: rest)
      (readInput_ne r hne) (by rw [readInput_flatten]; exact hflat) hpre
      (by simp only [MAX_LINE_LENGTH] at *; omega)
  rw [read_limited_line_eq r, he1]
  obtain ⟨r2, he2, hf2, hn2⟩ :=
    read_aux_ok (readInput r1) [] 0 line rest
      (readInput_ne r1 hn1) (by rw [readInput_flatten]; exact hf1) hline
      (by omega)
  rw [read_limited_line_eq r1, he2]
  exact ⟨rfl, rfl, by simp, rfl⟩

/-- **C7** witness: an 8192-byte line of `A`s (plus its newline the bound is
exceeded) followed by the well-formed line `LOG: x`. -/
theorem oversized_line_recovery_witness :
    (∀ c ∈ (Reader.mk []
        [List.replicate 8192 65 ++ [10] ++ ([76, 79, 71, 58, 32, 120] ++ [10])]).chunks,
      c ≠ [])
    ∧ flattenR (Reader.mk []
        [List.replicate 8192 65 ++ [10] ++ ([76, 79, 71, 58, 32, 120] ++ [10])]) =
        List.replicate 8192 65 ++ 10 :: ([76, 79, 71, 58, 32, 120] ++ 10 :: [])
    ∧ MAX_LINE_LENGTH ≤ (List.replicate 8192 65).length
    ∧ ((read_limited_line (Reader.mk []
        [List.replicate 8192 65 ++ [10] ++ ([76, 79, 71, 58, 32, 120] ++ [10])])).1 =
          .error .oversized
      ∧ handle_read (read_limited_line (Reader.mk []
          [List.replicate 8192 65 ++ [10] ++ ([76, 79, 71, 58, 32, 120] ++ [10])])).1 = .skip
      ∧ (read_limited_line (read_limited_line (Reader.mk []
          [List.replicate 8192 65 ++ [10] ++ ([76, 79, 71, 58, 32, 120] ++ [10])])).2).1 =
          .ok ([76, 79, 71, 58, 32, 120] ++ [10], [76, 79, 71, 58, 32, 120].length + 1)
      ∧ handle_read (read_limited_line (read_limited_line (Reader.mk []
          [List.replicate 8192 65 ++ [10] ++ ([76, 79, 71, 58, 32, 120] ++ [10])])).2).1 =
          dispatch ([76, 79, 71, 58, 32, 120] ++ [10]))
    ∧ dispatch ([76, 79, 71, 58, 32, 120] ++ [10]) = .logMsg [120] := by
  have hne1 : ∀ c ∈ (Reader.mk []
      [List.replicate 8192 65 ++ [10] ++ ([76, 79, 71, 58, 32, 120] ++ [10])]).chunks,
      c ≠ [] := by
    intro c hc
    rw [List.mem_singleton] at hc
    subst hc
    simp only [ne_eq, List.append_eq_nil, reduceCtorEq, and_false, false_and,
      not_false_eq_true]
  have hflat1 : flattenR (Reader.mk []
      [List.replicate 8192 65 ++ [10] ++ ([76, 79, 71, 58, 32, 120] ++ [10])]) =
      List.replicate 8192 65 ++ 10 :: ([76, 79, 71, 58, 32, 120] ++ 10 :: []) := by
    simp only [flattenR, List.flatten_cons, List.flatten_nil, List.append_nil,
      List.nil_append, List.append_assoc, List.cons_append]
  have hmax : MAX_LINE_LENGTH ≤ (List.replicate 8192 65).length := by
    rw [List.length_replicate]
    decide
  refine ⟨hne1, hflat1, hmax, ?_, by decide⟩
  exact oversized_line_recovery _ (List.replicate 8192 65) [76, 79, 71, 58, 32, 120] []
    hne1
    hflat1
    (by
      intro b hb
      have := List.eq_of_mem_replicate hb
      omega)
    hmax
    (by decide)
    (by decide)


lemma valid_utf8_head255 (rest : List Nat) : valid_utf8 (255 :: rest) = false := by
  rcases rest with _ | ⟨b2, _ | ⟨b3, _ | ⟨b4, r⟩⟩⟩ <;> rfl

/-- **C7** counterexample: the single physical line
`\xFF · A×8191 · LOG: x \n` is 8199 bytes long — longer than the 8192-byte
bound, so inside the claim's scope — and contains exactly one newline.
Delivered as the two chunks `[\xFF · A×8191]` (8192 bytes) and
`[LOG: x \n]`, the first read fails the UTF-8 check before the length bound
is ever exceeded: it returns the non-UTF-8 error, not the oversized one,
and consumes only the first chunk — the line is *not* drained through its
terminating newline.  The next read then parses the tail of that same
oversized line as a fresh `LOG: x` message, so framing is not intact and
the claim's guaranteed recovery fails at this input. -/
theorem oversized_line_nonutf8_counterexample :
    MAX_LINE_LENGTH <
      ((255 :: List.replicate 8191 65) ++ [76, 79, 71, 58, 32, 120, 10]).length
    ∧ ((255 :: List.replicate 8191 65) ++ [76, 79, 71, 58, 32, 120, 10]).count 10 = 1
    ∧ (read_limited_line
        ⟨[], [255 :: List.replicate 8191 65, [76, 79, 71, 58, 32, 120, 10]]⟩).1 =
        .error .nonUtf8
    ∧ (read_limited_line
        ⟨[], [255 :: List.replicate 8191 65, [76, 79, 71, 58, 32, 120, 10]]⟩).2 =
        ⟨[], [[76, 79, 71, 58, 32, 120, 10]]⟩
    ∧ (read_limited_line (⟨[], [[76, 79, 71, 58, 32, 120, 10]]⟩ : Reader)).1 =
        .ok ([76, 79, 71, 58, 32, 120, 10], 7)
    ∧ handle_read (read_limited_line
        (⟨[], [[76, 79, 71, 58, 32, 120, 10]]⟩ : Reader)).1 = .logMsg [120] := by
  have hno10 : ∀ b ∈ 255 :: List.replicate 8191 65, b ≠ 10 := by
    intro b hb
    rcases List.mem_cons.mp hb with rfl | hb'
    · decide
    · have := List.eq_of_mem_replicate hb'
      omega
  have h1 : read_limited_line
      ⟨[], [255 :: List.replicate 8191 65, [76, 79, 71, 58, 32, 120, 10]]⟩ =
      (.error .nonUtf8, ⟨[], [[76, 79, 71, 58, 32, 120, 10]]⟩) := by
    show read_limited_line_aux [] 0 _ = _
    rw [read_limited_line_aux, if_neg (List.cons_ne_nil 255 (List.replicate 8191 65))]
    have hav : read_avail (255 :: List.replicate 8191 65)
        [[76, 79, 71, 58, 32, 120, 10]] [] 0 =
        .done (.error .nonUtf8) ⟨[], [[76, 79, 71, 58, 32, 120, 10]]⟩ := by
      simp only [read_avail]
      rw [findIdx?_no_nl (255 :: List.replicate 8191 65) hno10]
      dsimp only
      rw [if_neg (by
        simp only [List.length_cons, List.length_replicate, MAX_LINE_LENGTH]
        omega)]
      rw [if_neg (by
        rw [valid_utf8_head255]
        exact Bool.false_ne_true)]
    rw [hav]
  refine ⟨?_, ?_, by rw [h1], by rw [h1], by decide, by decide⟩
  · simp only [List.length_append, List.length_cons, List.length_replicate,
      MAX_LINE_LENGTH]
    omega
  · rw [List.count_append, List.count_cons]
    rw [List.count_replicate]
    decide

/-- **C8** (amended): when the chunk carrying the invalid bytes also carries
the line terminator — in particular whenever the whole line arrives in one
buffered chunk — the offending line is discarded as a unit: the read reports
the non-UTF-8 protocol error, everything through the newline is consumed,
and the session continues (`continue`, not a close). -/
theorem non_utf8_line_discarded (line : List Nat) (cs : List (List Nat))
    (h10 : ∀ b ∈ line, b ≠ 10)
    (hlen : line.length + 1 ≤ MAX_LINE_LENGTH)
    (hbad : valid_utf8 (line ++ [10]) = false) :
    read_limited_line ⟨[], (line ++ [10]) :: cs⟩ = (.error .nonUtf8, ⟨[], cs⟩)
    ∧ handle_read (read_limited_line ⟨[], (line ++ [10]) :: cs⟩).1 = .skip := by
  have hcne : line ++ [10] ≠ [] := by
    simp only [ne_eq, List.append_eq_nil, reduceCtorEq, and_false, not_false_eq_true]
  have hfind : (line ++ [10]).findIdx? (fun b => b == 10) = some line.length :=
    findIdx?_first_nl line [] h10
  have htake : (line ++ [10]).take (line.length + 1) = line ++ [10] := by
    have h1 := @List.take_append Nat line [10] 1
    simpa using h1
  have hdrop : (line ++ [10]).drop (line.length + 1) = [] := by
    have h1 := @List.drop_append Nat line [10] 1
    simpa using h1
  have hav : read_avail (line ++ [10]) cs [] 0 =
      .done (.error .nonUtf8) ⟨[], cs⟩ := by
    simp only [read_avail]
    rw [hfind]
    dsimp only
    rw [htake, hdrop]
    rw [if_neg (by
      simp only [List.length_append, List.length_singleton]
      omega)]
    rw [if_neg (by rw [hbad]; exact Bool.false_ne_true)]
  have hmain : read_limited_line ⟨[], (line ++ [10]) :: cs⟩ =
      (.error .nonUtf8, ⟨[], cs⟩) := by
    show read_limited_line_aux [] 0 ((line ++ [10]) :: cs) = _
    rw [read_limited_line_aux, if_neg hcne, hav]
  exact ⟨hmain, by rw [hmain]; rfl⟩

/-- **C8** witness: the one-chunk line `\xFF` + newline followed by another
pending chunk; the read fails, the newline is consumed, the session
continues. -/
theorem non_utf8_line_discarded_witness :
    (∀ b ∈ [255], b ≠ 10)
    ∧ List.length [255] + 1 ≤ MAX_LINE_LENGTH
    ∧ valid_utf8 ([255] ++ [10]) = false
    ∧ (read_limited_line ⟨[], ([255] ++ [10]) :: [[65, 10]]⟩ =
        (.error .nonUtf8, ⟨[], [[65, 10]]⟩)
      ∧ handle_read (read_limited_line ⟨[], ([255] ++ [10]) :: [[65, 10]]⟩).1 = .skip) :=
  ⟨by decide, by decide, by decide,
   non_utf8_line_discarded [255] [[65, 10]] (by decide) (by decide) (by decide)⟩

/-- **C8** counterexample: the single physical line `\xFF LOG: x\n`
(one newline, so one line) delivered in two buffered chunks.  The read that
hits the invalid byte consumes only that chunk; the rest of the same line
remains in the stream and the following read parses it as a fresh `LOG: x`
message — a portion of the offending line's bytes is processed as part of a
subsequent message, contradicting the claim that the offending line is
always discarded as a unit. -/
theorem non_utf8_unit_discard_counterexample :
    (255 :: [76, 79, 71, 58, 32, 120, 10]).count 10 = 1
    ∧ (read_limited_line ⟨[], [[255], [76, 79, 71, 58, 32, 120, 10]]⟩).1 =
        .error .nonUtf8
    ∧ handle_read (read_limited_line ⟨[], [[255], [76, 79, 71, 58, 32, 120, 10]]⟩).1 =
        .skip
    ∧ (read_limited_line
        (read_limited_line ⟨[], [[255], [76, 79, 71, 58, 32, 120, 10]]⟩).2).1 =
        .ok ([76, 79, 71, 58, 32, 120, 10], 7)
    ∧ handle_read (read_limited_line
        (read_limited_line ⟨[], [[255], [76, 79, 71, 58, 32, 120, 10]]⟩).2).1 =
        .logMsg [120] := by
  refine ⟨by decide, by decide, by decide, by decide, by decide⟩

end Panopticon
